import Mathlib

/-!
Verification of the wiki-scraper data model and extraction routines
(`scrapper/model.py`, `scrapper/crawler.py`, `scrapper/utils.py`,
`scrapper/__main__.py`) against their specification.

The DOM is embedded as a tree of element/text nodes; BeautifulSoup's
traversal helpers (`get_text`, `find`, `find_all`) are embedded as
recursive functions over that tree.  The extraction routines are
translated statement-by-statement from the Python source; stateful
methods become explicit state-passing functions.
-/

namespace Scrapper

/-- A DOM node: either a text node (BeautifulSoup `NavigableString`,
which has no `name` attribute) or an element with a tag name, a class
list (the multi-valued `class` attribute), an optional `href`
attribute, and an ordered list of children. -/
inductive Node where
  | text (s : String)
  | elem (tag : String) (classes : List String) (href : Option String)
      (children : List Node)
deriving Repr

/-- Direct children of a node (`content_container.children`). -/
def childrenOf : Node → List Node
  | .text _ => []
  | .elem _ _ _ kids => kids

/-- Python `str.strip()`: remove whitespace from both ends. -/
def pyStrip (s : String) : String :=
  ⟨((s.data.dropWhile Char.isWhitespace).reverse.dropWhile
      Char.isWhitespace).reverse⟩

/-- Worker for `pyReplace`: scan the character list left to right,
replacing each non-overlapping occurrence of `pat`; `fuel` bounds the
number of scanning steps (one per character examined). -/
def replaceAux (pat rep : List Char) : Nat → List Char → List Char
  | 0, cs => cs
  | _ + 1, [] => []
  | fuel + 1, c :: cs =>
      if pat.isPrefixOf (c :: cs) then
        rep ++ replaceAux pat rep fuel (List.drop pat.length (c :: cs))
      else
        c :: replaceAux pat rep fuel cs

/-- Python `s.replace(pat, rep)` for a non-empty pattern: replace all
non-overlapping occurrences, scanning left to right.  (The source only
ever calls it with the non-empty pattern `"[edit]"`.) -/
def pyReplace (s pat rep : String) : String :=
  ⟨replaceAux pat.data rep.data s.data.length s.data⟩

/-- Python `s[0]` on a string known to be non-empty: the one-character
string holding the first character. -/
def firstCharString (s : String) : String :=
  match s.data with
  | [] => ""
  | c :: _ => ⟨[c]⟩

/-- Is this node an element with the given tag name?  Text nodes have
no tag (`hasattr(child, "name")` is false for them). -/
def isTag (t : String) : Node → Bool
  | .text _ => false
  | .elem tg _ _ _ => tg == t

/-- The `class` attribute of an element (`tag.get("class", [])`);
empty for text nodes. -/
def classesOf : Node → List String
  | .text _ => []
  | .elem _ cls _ _ => cls

/-- BeautifulSoup's matching of a `class_=pat` query against a
multi-valued class attribute: the pattern matches if it equals one of
the classes or the space-joined full attribute value (this is how
`class_="infobox side"` matches `class="infobox side"`). -/
def matchClass (pat : String) (cls : List String) : Bool :=
  cls.contains pat || pat == String.intercalate " " cls

mutual
/-- `tag.get_text()`: concatenation of all descendant text nodes in
document order. -/
def getText : Node → String
  | .text s => s
  | .elem _ _ _ kids => getTextList kids

/-- `get_text` mapped over a list of sibling nodes, concatenated. -/
def getTextList : List Node → String
  | [] => ""
  | k :: ks => getText k ++ getTextList ks
end

mutual
/-- `tag.get_text(strip=True)`: concatenation of all descendant text
nodes, each stripped of surrounding whitespace, in document order. -/
def getTextStrip : Node → String
  | .text s => pyStrip s
  | .elem _ _ _ kids => getTextStripList kids

/-- `get_text(strip=True)` mapped over sibling nodes, concatenated. -/
def getTextStripList : List Node → String
  | [] => ""
  | k :: ks => getTextStrip k ++ getTextStripList ks
end

mutual
/-- `tag.find_all(pred)`: all descendants (the node itself excluded)
satisfying the predicate, in document order. -/
def findAllDesc (p : Node → Bool) : Node → List Node
  | .text _ => []
  | .elem _ _ _ kids => findAllList p kids

/-- Descendant search over a list of sibling subtrees: each matching
sibling precedes its own matching descendants. -/
def findAllList (p : Node → Bool) : List Node → List Node
  | [] => []
  | k :: ks =>
      (if p k then [k] else []) ++ findAllDesc p k ++ findAllList p ks
end

/-- `tag.find(pred)`: the first matching descendant, if any. -/
def findDesc (p : Node → Bool) (n : Node) : Option Node :=
  (findAllDesc p n).head?

/-- `utils.extract_dl_text`: texts of all `dt`/`dd` descendants of a
`dl` tag, each stripped, joined by line breaks. -/
def extract_dl_text (dl : Node) : String :=
  String.intercalate "\n"
    ((findAllDesc (fun n => isTag "dt" n || isTag "dd" n) dl).map
      getTextStrip)

/-- `ContentSection`: a titled span of body content. -/
structure ContentSection where
  title : String
  content : String
deriving Repr, DecidableEq

/-- `_get_title_from_h2`: the text of the heading's `mw-headline`
span child if present, else the heading's own full text. -/
def getTitleFromH2 (child : Node) : String :=
  match findDesc
      (fun n => isTag "span" n && matchClass "mw-headline" (classesOf n))
      child with
  | some headline => getTextStrip headline
  | none => getTextStrip child

/-- `_get_content_section`: join the buffered texts and remove every
occurrence of the literal `[edit]` marker. -/
def getContentSection (current_title : String)
    (current_texts : List String) : ContentSection :=
  ⟨current_title, pyReplace (String.join current_texts) "[edit]" ""⟩

/-- The section-extractor state: the local variables of
`Content.set_info_content_sections` plus the accumulated output. -/
structure SEState where
  current_title : String
  current_texts : List String
  have_text : Bool
  sections : List ContentSection
deriving Repr, DecidableEq

/-- One iteration of the `for child in content_container.children`
loop of `Content.set_info_content_sections`, as a state transformer.
Text nodes are skipped (`hasattr(child, "name")` fails). -/
def stepChild (st : SEState) (child : Node) : SEState :=
  match child with
  | .text _ => st
  | .elem tag _ _ _ =>
      if tag == "h2" then
        { current_title := getTitleFromH2 child
          current_texts := []
          have_text := false
          sections :=
            if st.have_text then
              st.sections ++
                [getContentSection st.current_title st.current_texts]
            else st.sections }
      else if tag == "p" then
        { st with
            current_texts := st.current_texts ++ [getText child]
            have_text := true }
      else if tag == "h3" || tag == "h4" then
        { st with
            current_texts :=
              st.current_texts ++ ["\n" ++ getText child ++ "\n"] }
      else if tag == "dl" then
        let dl_text := extract_dl_text child
        if dl_text ≠ "" then
          { st with current_texts := st.current_texts ++ [dl_text] }
        else st
      else st

/-- The full loop of `Content.set_info_content_sections` over a child
list, including the final flush of a pending section. -/
def runSectionExtractor (children : List Node) : List ContentSection :=
  let st := children.foldl stepChild ⟨"", [], false, []⟩
  if st.have_text then
    st.sections ++ [getContentSection st.current_title st.current_texts]
  else st.sections

/-- `Content.set_info_content_sections`, applied to the content
container node: iterate over its direct children. -/
def set_info_content_sections (content_container : Node) :
    List ContentSection :=
  runSectionExtractor (childrenOf content_container)

/-- `InfoBoxSection`: one key/value row of an infobox. -/
structure InfoBoxSection where
  title : String
  description : String
deriving Repr, DecidableEq

/-- One iteration of the `for row in rows` loop of
`InfoBox.set_info_box_sections`: find the row's first `th` and first
`td`; skip the row if its header carries the `title` class; if both
cells are present, emit one section whose description is the
comma-joined stripped link texts when the data cell contains links,
else the data cell's stripped text. -/
def processRow (acc : List InfoBoxSection) (row : Node) :
    List InfoBoxSection :=
  let header := findDesc (isTag "th") row
  let data := findDesc (isTag "td") row
  match header with
  | none => acc
  | some h =>
      if (classesOf h).contains "title" then acc
      else
        match data with
        | none => acc
        | some d =>
            let links := findAllDesc (isTag "a") d
            let value :=
              if !links.isEmpty then
                String.intercalate ", " (links.map getTextStrip)
              else getTextStrip d
            acc ++ [⟨getTextStrip h, value⟩]

/-- `InfoBox.set_info_box_sections`: fold the row loop over all `tr`
descendants of the infobox table (`infobox_table.find_all("tr")`). -/
def set_info_box_sections (infobox_table : Node) :
    List InfoBoxSection :=
  (findAllDesc (isTag "tr") infobox_table).foldl processRow []

/-- `InfoBox`: a titled key/value summary table. -/
structure InfoBox where
  title : String
  info_box_sections : List InfoBoxSection
deriving Repr, DecidableEq

/-- `Content`: the ordered body sections of a page. -/
structure Content where
  content_sections : List ContentSection
deriving Repr, DecidableEq

/-- `Page`: title, url, optional info box, optional content.  The url
is stored as its string form (pydantic `HttpUrl` keeps a validated
URL; validity is tracked by `isValidHttpUrl` below). -/
structure Page where
  title : String
  url : String
  info_box : Option InfoBox
  content : Option Content
deriving Repr, DecidableEq

/-- `Page._set_info_box`, applied to a fetched page source: if a
`table` with class `"infobox side"` is found, build an `InfoBox` whose
title is the text of the table's first `th` with class `"title"` (or
`""` if none) and populate its sections; otherwise leave the page's
`info_box` field as it was (the method does nothing). -/
def set_info_box (page_source : Node) (info_box : Option InfoBox) :
    Option InfoBox :=
  match findDesc
      (fun n => isTag "table" n && matchClass "infobox side" (classesOf n))
      page_source with
  | none => info_box
  | some infobox_table =>
      let title :=
        match findDesc
            (fun n => isTag "th" n && matchClass "title" (classesOf n))
            infobox_table with
        | some title_cell => getTextStrip title_cell
        | none => ""
      some ⟨title, set_info_box_sections infobox_table⟩

/-- Outcome of fetching a page's DOM (`_set_page_source` inside a
browser session): either the navigation/browser layer raised, or it
produced a parsed snapshot. -/
inductive NavResult where
  | fail
  | ok (dom : Node)

/-- The lookup of the main content container in `Page._set_content`:
`page_source.find("div", class_="mw-parser-output")`. -/
def findContentContainer (dom : Node) : Option Node :=
  findDesc
    (fun n => isTag "div" n && matchClass "mw-parser-output" (classesOf n))
    dom

/-- `Page.scrape_content` with `Page._set_content` inlined, as a state
transformer on the page.  The `try`/`except Exception` in
`scrape_content` (and the swallowing `except` of
`utils.init_browser`'s context manager) make every failure
non-propagating, so the result is a total function.

If navigation raises, `_set_content` never runs and the page is
unchanged.  If the snapshot has no `div` with class
`"mw-parser-output"`, `_set_content` has already executed
`self.content = Content()` before `set_info_content_sections(None)`
raises `AttributeError`, so the caught failure leaves an empty
`Content` assigned.  Otherwise the extracted sections are stored. -/
def scrape_content (nav : NavResult) (p : Page) : Page :=
  match nav with
  | .fail => p
  | .ok dom =>
      match findContentContainer dom with
      | none => { p with content := some ⟨[]⟩ }
      | some content_container =>
          { p with
              content :=
                some ⟨set_info_content_sections content_container⟩ }

/-- `Category`: a named ordered list of pages. -/
structure Category where
  name : String
  pages : List Page
deriving Repr, DecidableEq

/-- `Category.get_page`: the first page whose title equals `title`. -/
def get_page (c : Category) (title : String) : Option Page :=
  c.pages.find? (fun p => p.title == title)

/-- Replace the first element satisfying `p` by its image under `f`;
the rest of the list is untouched.  This captures an in-place
mutation of one object found in a Python list. -/
def updateFirst (p : α → Bool) (f : α → α) : List α → List α
  | [] => []
  | x :: xs => if p x then f x :: xs else x :: updateFirst p f xs

/-- `Category.scrape_page`: look up the first page with the given
title via `get_page` and, if found, run `scrape_content` on it (an
in-place mutation of that page object); otherwise do nothing. -/
def category_scrape_page (nav : NavResult) (c : Category)
    (title : String) : Category :=
  { c with
      pages :=
        updateFirst (fun p => p.title == title) (scrape_content nav)
          c.pages }

/-- `Crawler`: holds the category list. -/
structure Crawler where
  categories : List Category
deriving Repr, DecidableEq

/-- `Crawler.get_category`: the first category with the given name. -/
def get_category (c : Crawler) (name : String) : Option Category :=
  c.categories.find? (fun cat => cat.name == name)

/-- `Crawler.scrape_page`: evaluates `page_title[0]` — an uncaught
`IndexError` (modelled as `none`) when the title is empty — then looks
up the first category whose name equals that one-character string and
scrapes the page titled `page_title` inside it; if no category name
matches, `get_category` returns `None` and nothing happens. -/
def crawler_scrape_page (nav : NavResult) (c : Crawler)
    (page_title : String) : Option Crawler :=
  if page_title.data.isEmpty then none
  else
    some
      ⟨updateFirst (fun cat => cat.name == firstCharString page_title)
        (fun cat => category_scrape_page nav cat page_title)
        c.categories⟩

/-- Approximation of pydantic's `HttpUrl` validation, which the claims
exercise only through "this string passes" / "this string fails": the
string must start with scheme `http://` or `https://` and have a
non-empty remainder (the host). -/
def isValidHttpUrl (s : String) : Bool :=
  ("http://".data.isPrefixOf s.data && "http://".length < s.length) ||
    ("https://".data.isPrefixOf s.data && "https://".length < s.length)

/-- One anchor inside a category group's item list, as read by the
parser: its visible text (`link.text`) and its `href` attribute
(`link.get_attribute("href")`, absent when the attribute is
missing). -/
structure Anchor where
  text : String
  href : Option String
deriving Repr, DecidableEq

/-- One `div.mw-category-group` element, as read by the parser: the
text of its `h3` heading and the anchors matched by the CSS selector
`"ul li a"`, in document order. -/
structure CatGroup where
  heading : String
  anchors : List Anchor
deriving Repr, DecidableEq

/-- The inner anchor loop of `parse_categories` /
`Crawler.set_categories._set_categories`: an anchor with a missing
href is skipped (`if url is not None`); for a present href,
`HttpUrl(url)` either validates — yielding a `Page` with the anchor's
text as title and unset info box/content — or raises a pydantic
`ValidationError` (modelled as `Except.error` carrying the offending
href), which aborts the whole parse. -/
def buildPages : List Anchor → Except String (List Page)
  | [] => .ok []
  | a :: rest =>
      match a.href with
      | none => buildPages rest
      | some url =>
          if isValidHttpUrl url then
            match buildPages rest with
            | .ok ps => .ok (⟨a.text, url, none, none⟩ :: ps)
            | .error e => .error e
          else .error url

/-- `parse_categories` (`__main__.py`, and identically
`Crawler.set_categories._set_categories`): for each category group, in
order, take the stripped `h3` text as the category name and build the
page list from the group's anchors; a validation error anywhere aborts
the whole parse. -/
def parse_categories : List CatGroup → Except String (List Category)
  | [] => .ok []
  | g :: rest =>
      match buildPages g.anchors with
      | .error e => .error e
      | .ok pages =>
          match parse_categories rest with
          | .ok cats => .ok (⟨pyStrip g.heading, pages⟩ :: cats)
          | .error e => .error e

/-- The page a single anchor is expected to contribute: none when the
href is missing (silently dropped) or would fail validation (in the
code that case aborts the parse instead; see the C3 analysis). -/
def anchorPage (a : Anchor) : Option Page :=
  match a.href with
  | none => none
  | some url =>
      if isValidHttpUrl url then some ⟨a.text, url, none, none⟩
      else none

/-- JSON values, the store format written by `json.dump` and read by
`json.load`.  Numbers and booleans never occur in this schema. -/
inductive Json where
  | null
  | str (s : String)
  | arr (items : List Json)
  | obj (fields : List (String × Json))
deriving Repr

/-- `model_dump(mode="json")` of an `InfoBoxSection`. -/
def encodeInfoBoxSection (s : InfoBoxSection) : Json :=
  .obj [("title", .str s.title), ("description", .str s.description)]

/-- `model_dump(mode="json")` of an `InfoBox`. -/
def encodeInfoBox (b : InfoBox) : Json :=
  .obj
    [("title", .str b.title),
      ("info_box_sections",
        .arr (b.info_box_sections.map encodeInfoBoxSection))]

/-- `model_dump(mode="json")` of a `ContentSection`. -/
def encodeContentSection (s : ContentSection) : Json :=
  .obj [("title", .str s.title), ("content", .str s.content)]

/-- `model_dump(mode="json")` of a `Content`. -/
def encodeContent (c : Content) : Json :=
  .obj
    [("content_sections", .arr (c.content_sections.map encodeContentSection))]

/-- An optional field: `None` dumps as JSON `null`. -/
def encodeOpt (f : α → Json) : Option α → Json
  | none => .null
  | some x => f x

/-- `model_dump(mode="json")` of a `Page`: the `HttpUrl` is serialized
as its string form, the private `_page_source` attribute is not
dumped. -/
def encodePage (p : Page) : Json :=
  .obj
    [("title", .str p.title), ("url", .str p.url),
      ("info_box", encodeOpt encodeInfoBox p.info_box),
      ("content", encodeOpt encodeContent p.content)]

/-- `model_dump(mode="json")` of a `Category`. -/
def encodeCategory (c : Category) : Json :=
  .obj [("name", .str c.name), ("pages", .arr (c.pages.map encodePage))]

/-- `Crawler.save_categories`, up to JSON text rendering (the `json`
module faithfully round-trips the value level, which is what the spec
constrains): the dumped value is the array of dumped categories. -/
def save_categories (categories : List Category) : Json :=
  .arr (categories.map encodeCategory)

/-- Pydantic validation of a JSON array element by element: the first
invalid element fails the whole load. -/
def decodeList (f : Json → Option α) : List Json → Option (List α)
  | [] => some []
  | j :: js =>
      match f j with
      | none => none
      | some x =>
          match decodeList f js with
          | none => none
          | some xs => some (x :: xs)

/-- Field lookup in a JSON object, by key (field order irrelevant). -/
def lookupField (key : String) : List (String × Json) → Option Json
  | [] => none
  | (k, v) :: rest => if k == key then some v else lookupField key rest

/-- A JSON value expected to be a string (pydantic `str` field). -/
def asStr : Json → Option String
  | .str s => some s
  | _ => none

/-- Pydantic validation of an `InfoBoxSection` from JSON data. -/
def decodeInfoBoxSection : Json → Option InfoBoxSection
  | .obj fields => do
      let t ← lookupField "title" fields >>= asStr
      let d ← lookupField "description" fields >>= asStr
      pure ⟨t, d⟩
  | _ => none

/-- Pydantic validation of an `InfoBox` from JSON data. -/
def decodeInfoBox : Json → Option InfoBox
  | .obj fields => do
      let t ← lookupField "title" fields >>= asStr
      let secs ←
        match lookupField "info_box_sections" fields with
        | some (.arr xs) => decodeList decodeInfoBoxSection xs
        | some _ => none
        | none => some []
      pure ⟨t, secs⟩
  | _ => none

/-- Pydantic validation of a `ContentSection` from JSON data. -/
def decodeContentSection : Json → Option ContentSection
  | .obj fields => do
      let t ← lookupField "title" fields >>= asStr
      let c ← lookupField "content" fields >>= asStr
      pure ⟨t, c⟩
  | _ => none

/-- Pydantic validation of a `Content` from JSON data. -/
def decodeContent : Json → Option Content
  | .obj fields => do
      let secs ←
        match lookupField "content_sections" fields with
        | some (.arr xs) => decodeList decodeContentSection xs
        | some _ => none
        | none => some []
      pure ⟨secs⟩
  | _ => none

/-- An optional model field: `null` (or an absent key, handled by the
callers) validates to `None`. -/
def decodeOpt (f : Json → Option α) : Json → Option (Option α)
  | .null => some none
  | j => (f j).map some

/-- Pydantic validation of a `Page` from JSON data (`Page(**data)`):
the `url` string must pass `HttpUrl` validation, absent or `null`
optional fields become `None`. -/
def decodePage : Json → Option Page
  | .obj fields => do
      let t ← lookupField "title" fields >>= asStr
      let u ← lookupField "url" fields >>= asStr
      if isValidHttpUrl u then
        let ib ←
          match lookupField "info_box" fields with
          | none => some none
          | some j => decodeOpt decodeInfoBox j
        let ct ←
          match lookupField "content" fields with
          | none => some none
          | some j => decodeOpt decodeContent j
        pure ⟨t, u, ib, ct⟩
      else none
  | _ => none

/-- Pydantic validation of a `Category` from JSON data
(`Category(**data)`). -/
def decodeCategory : Json → Option Category
  | .obj fields => do
      let n ← lookupField "name" fields >>= asStr
      let ps ←
        match lookupField "pages" fields with
        | some (.arr xs) => decodeList decodePage xs
        | _ => none
      pure ⟨n, ps⟩
  | _ => none

/-- `Crawler.load_categories`, at the JSON value level: the loaded
value must be an array, each element validating as a `Category`; a
malformed store (modelled as `none`) aborts the load. -/
def load_categories : Json → Option (List Category)
  | .arr xs => decodeList decodeCategory xs
  | _ => none

/-- State of one batch of page-extraction tasks launched by
`Category.scrape_pages` (`asyncio.gather` over one
`scrape_with_limit` coroutine per page, sharing an
`asyncio.Semaphore(max_workers)`): how many tasks have not yet
acquired a slot, how many hold a slot (their `page.scrape_content`
thread is running), and how many have finished with or without a
caught per-page exception. -/
structure BatchState where
  pending : Nat
  running : Nat
  succeeded : Nat
  failed : Nat
deriving Repr, DecidableEq

/-- Interleaving semantics of the semaphore-bounded batch with
capacity `N`: a pending task may start only while fewer than `N`
tasks hold a slot (`async with semaphore`); a running task finishes —
successfully, or with an exception confined by
`scrape_content`'s `except Exception` — and releases its slot. -/
inductive BatchStep (N : Nat) : BatchState → BatchState → Prop where
  | start (s : BatchState) : 0 < s.pending → s.running < N →
      BatchStep N s ⟨s.pending - 1, s.running + 1, s.succeeded, s.failed⟩
  | finishOk (s : BatchState) : 0 < s.running →
      BatchStep N s ⟨s.pending, s.running - 1, s.succeeded + 1, s.failed⟩
  | finishFail (s : BatchState) : 0 < s.running →
      BatchStep N s ⟨s.pending, s.running - 1, s.succeeded, s.failed + 1⟩

/-- States reachable by the batch of `P` page tasks from its launch
(all `P` coroutines created by `gather`, none started). -/
inductive BatchReachable (N P : Nat) : BatchState → Prop where
  | init : BatchReachable N P ⟨P, 0, 0, 0⟩
  | step {s t : BatchState} : BatchReachable N P s → BatchStep N s t →
      BatchReachable N P t

/-- The structured-join condition under which `asyncio.gather`
returns: no task is pending or running any more. -/
def joined (s : BatchState) : Prop := s.pending = 0 ∧ s.running = 0

/-- A paragraph element with a single text child. -/
def pNode (s : String) : Node := .elem "p" [] none [.text s]

/-- A level-2 heading with a single text child. -/
def h2Node (s : String) : Node := .elem "h2" [] none [.text s]

/-- A level-3 heading with a single text child. -/
def h3Node (s : String) : Node := .elem "h3" [] none [.text s]

/-- A definition list with one `dt` and one `dd` item. -/
def dlNode (t d : String) : Node :=
  .elem "dl" [] none
    [.elem "dt" [] none [.text t], .elem "dd" [] none [.text d]]

/-- The section pending in the extractor state, as flushed by a
level-2 heading or by the end of input: present only when `have_text`
holds. -/
def emitPending (st : SEState) : List ContentSection :=
  if st.have_text then
    [getContentSection st.current_title st.current_texts]
  else []

/-- The output of the extractor if the input ended in state `st`. -/
def finishState (st : SEState) : List ContentSection :=
  st.sections ++ emitPending st

/-- The children contributed by one heading block: the `h2` node
followed by its paragraphs. -/
def blockChildren (b : Node × List Node) : List Node := b.1 :: b.2

/-- The section the extractor is expected to emit for one heading
block: the heading's title and the concatenation of its paragraphs'
texts with every `[edit]` removed. -/
def blockSection (b : Node × List Node) : ContentSection :=
  ⟨getTitleFromH2 b.1,
    pyReplace (String.join (b.2.map getText)) "[edit]" ""⟩

/-- One piece of a data cell's contents: raw text or a link. -/
inductive TdItem where
  | txt (s : String)
  | link (href : Option String) (s : String)
deriving Repr, DecidableEq

/-- The DOM node of a data-cell item. -/
def tdItemNode : TdItem → Node
  | .txt s => .text s
  | .link h s => .elem "a" [] h [.text s]

/-- Shape description of one infobox key/value row: both cells
present, only the header, only the data cell, or neither. -/
inductive RowSpec where
  | full (thClasses : List String) (key : String) (items : List TdItem)
  | headerOnly (thClasses : List String) (key : String)
  | dataOnly (items : List TdItem)
  | blank
deriving Repr, DecidableEq

/-- The `tr` element described by a row shape. -/
def rowNode : RowSpec → Node
  | .full cls key items =>
      .elem "tr" [] none
        [.elem "th" cls none [.text key],
          .elem "td" [] none (items.map tdItemNode)]
  | .headerOnly cls key =>
      .elem "tr" [] none [.elem "th" cls none [.text key]]
  | .dataOnly items =>
      .elem "tr" [] none [.elem "td" [] none (items.map tdItemNode)]
  | .blank => .elem "tr" [] none []

/-- The distinguished title row: a `tr` whose header cell carries the
`title` class. -/
def titleRowNode (titleText : String) : Node :=
  .elem "tr" [] none [.elem "th" ["title"] none [.text titleText]]

/-- An infobox table (`class="infobox side"`) with an optional title
row followed by the described key/value rows. -/
def tableNode (titleRow : Option String) (rows : List RowSpec) : Node :=
  .elem "table" ["infobox", "side"] none
    ((match titleRow with
      | some t => [titleRowNode t]
      | none => []) ++ rows.map rowNode)

/-- A page DOM holding one infobox table. -/
def domNode (tbl : Node) : Node :=
  .elem "html" [] none [.elem "body" [] none [tbl]]

/-- Concatenation of a list of strings (spec-side counterpart of the
text a cell yields when read chunk by chunk). -/
def joinStrings : List String → String
  | [] => ""
  | s :: rest => s ++ joinStrings rest

/-- The stripped text of one data-cell item. -/
def itemStripText : TdItem → String
  | .txt s => pyStrip s
  | .link _ s => pyStrip s

/-- The stripped texts of the link items of a data cell, in order. -/
def linkTexts (items : List TdItem) : List String :=
  items.filterMap fun i =>
    match i with
    | .link _ s => some (pyStrip s)
    | .txt _ => none

/-- The description the extractor is expected to produce for a data
cell: the comma-joined link texts when the cell contains links, else
the cell's own stripped text. -/
def tdValue (items : List TdItem) : String :=
  if !(linkTexts items).isEmpty then
    String.intercalate ", " (linkTexts items)
  else joinStrings (items.map itemStripText)

/-- The section the extractor is expected to emit for one described
row: only a row with both cells whose header is not the title cell
produces one. -/
def rowSection : RowSpec → Option InfoBoxSection
  | .full cls key items =>
      if cls.contains "title" then none
      else some ⟨pyStrip key, tdValue items⟩
  | _ => none

/-- The header cell of this row shape does not look like a title
cell under either of the code's two checks (`"title" in classes` and
`find(..., class_="title")`). -/
def rowTitleFree : RowSpec → Prop
  | .full cls _ _ => matchClass "title" cls = false
  | .headerOnly cls _ => matchClass "title" cls = false
  | .dataOnly _ => True
  | .blank => True

/-- Is this row shape missing its header cell or its data cell? -/
def rowMissingCell : RowSpec → Bool
  | .full _ _ _ => false
  | _ => true

theorem stepChild_text (st : SEState) (s : String) :
    stepChild st (.text s) = st := rfl

theorem stepChild_p {n : Node} (h : isTag "p" n = true) (st : SEState) :
    stepChild st n =
      ⟨st.current_title, st.current_texts ++ [getText n], true,
        st.sections⟩ := by
  cases n with
  | text s => simp [isTag] at h
  | elem tg cls hr kids =>
      have htg : tg = "p" := by simpa [isTag] using h
      subst htg; rfl

theorem stepChild_h2 {n : Node} (h : isTag "h2" n = true)
    (st : SEState) :
    stepChild st n =
      ⟨getTitleFromH2 n, [], false, st.sections ++ emitPending st⟩ := by
  cases n with
  | text s => simp [isTag] at h
  | elem tg cls hr kids =>
      have htg : tg = "h2" := by simpa [isTag] using h
      subst htg
      cases hst : st.have_text <;>
        simp [stepChild, emitPending, hst]

theorem stepChild_h34 {n : Node}
    (h : isTag "h3" n = true ∨ isTag "h4" n = true) (st : SEState) :
    stepChild st n =
      ⟨st.current_title,
        st.current_texts ++ ["\n" ++ getText n ++ "\n"], st.have_text,
        st.sections⟩ := by
  cases n with
  | text s => simp [isTag] at h
  | elem tg cls hr kids =>
      rcases h with h | h
      · have htg : tg = "h3" := by simpa [isTag] using h
        subst htg; rfl
      · have htg : tg = "h4" := by simpa [isTag] using h
        subst htg; rfl

theorem stepChild_dl {n : Node} (h : isTag "dl" n = true)
    (st : SEState) :
    stepChild st n =
      ⟨st.current_title,
        st.current_texts ++
          (if extract_dl_text n = "" then [] else [extract_dl_text n]),
        st.have_text, st.sections⟩ := by
  cases n with
  | text s => simp [isTag] at h
  | elem tg cls hr kids =>
      have htg : tg = "dl" := by simpa [isTag] using h
      subst htg
      by_cases hdl : extract_dl_text (.elem "dl" cls hr kids) = "" <;>
        simp [stepChild, hdl]

theorem foldl_paras (ps : List Node) :
    ∀ st : SEState, (∀ n ∈ ps, isTag "p" n = true) →
      ps.foldl stepChild st =
        ⟨st.current_title, st.current_texts ++ ps.map getText,
          st.have_text || !ps.isEmpty, st.sections⟩ := by
  induction ps with
  | nil => intro st _; simp
  | cons n ps ih =>
      intro st h
      rw [List.foldl_cons, stepChild_p (h n (by simp)),
        ih _ (fun x hx => h x (by simp [hx]))]
      simp

theorem runSE_eq_finish (children : List Node) :
    runSectionExtractor children =
      finishState (children.foldl stepChild ⟨"", [], false, []⟩) := by
  cases h : (children.foldl stepChild ⟨"", [], false, []⟩).have_text <;>
    simp [runSectionExtractor, finishState, emitPending, h]

theorem foldl_block {h : Node} {ps : List Node}
    (hh : isTag "h2" h = true) (hps : ps ≠ [])
    (hall : ∀ n ∈ ps, isTag "p" n = true) (st : SEState) :
    (h :: ps).foldl stepChild st =
      ⟨getTitleFromH2 h, ps.map getText, true, finishState st⟩ := by
  rw [List.foldl_cons, stepChild_h2 hh, foldl_paras ps _ hall]
  simp [finishState, hps]

theorem foldl_blocks (blocks : List (Node × List Node)) :
    ∀ st : SEState,
      (∀ b ∈ blocks,
        isTag "h2" b.1 = true ∧ b.2 ≠ [] ∧
          ∀ n ∈ b.2, isTag "p" n = true) →
      finishState ((blocks.flatMap blockChildren).foldl stepChild st) =
        finishState st ++ blocks.map blockSection := by
  induction blocks with
  | nil => intro st _; simp
  | cons b bs ih =>
      intro st hb
      obtain ⟨hh, hps, hall⟩ := hb b (by simp)
      rw [List.flatMap_cons, List.foldl_append, blockChildren,
        foldl_block hh hps hall,
        ih _ (fun x hx => hb x (by simp [hx]))]
      simp [finishState, emitPending, blockSection, getContentSection]

/-- C1: a content container whose element children are `K` level-2
headings, each followed by at least one paragraph, optionally preceded
by leading paragraphs, yields exactly `K` sections (`K + 1` when
leading prose is present), in document order; each section's content
is the concatenation of its paragraphs' texts with every `[edit]`
removed. -/
theorem sectionExtractor_headings_with_paragraphs
    (lead : List Node) (blocks : List (Node × List Node))
    (cls : List String) (href : Option String)
    (hlead : ∀ n ∈ lead, isTag "p" n = true)
    (hblocks : ∀ b ∈ blocks,
      isTag "h2" b.1 = true ∧ b.2 ≠ [] ∧
        ∀ n ∈ b.2, isTag "p" n = true) :
    set_info_content_sections
        (.elem "div" cls href (lead ++ blocks.flatMap blockChildren)) =
      (if lead.isEmpty then [] else
        [⟨"", pyReplace (String.join (lead.map getText)) "[edit]" ""⟩]) ++
        blocks.map blockSection ∧
    (set_info_content_sections
        (.elem "div" cls href
          (lead ++ blocks.flatMap blockChildren))).length =
      blocks.length + (if lead.isEmpty then 0 else 1) := by
  have hmain :
      set_info_content_sections
          (.elem "div" cls href (lead ++ blocks.flatMap blockChildren)) =
        (if lead.isEmpty then [] else
          [⟨"", pyReplace (String.join (lead.map getText))
            "[edit]" ""⟩]) ++ blocks.map blockSection := by
    show runSectionExtractor (lead ++ blocks.flatMap blockChildren) = _
    rw [runSE_eq_finish, List.foldl_append,
      foldl_paras lead _ hlead, foldl_blocks blocks _ hblocks]
    cases hl : lead.isEmpty <;>
      simp [finishState, emitPending, getContentSection, hl]
  refine ⟨hmain, ?_⟩
  rw [hmain]
  cases hl : lead.isEmpty <;> simp [hl, Nat.add_comm]

/-- C1 witness: one leading paragraph and two heading blocks yield
three sections with the expected titles and contents. -/
theorem sectionExtractor_headings_with_paragraphs_witness :
    set_info_content_sections
        (.elem "div" [] none
          ([pNode "Intro"] ++
            [(h2Node "History", [pNode "A"]),
              (h2Node "Geo", [pNode "B", pNode "C"])].flatMap
              blockChildren)) =
      [⟨"", "Intro"⟩, ⟨"History", "A"⟩, ⟨"Geo", "BC"⟩] ∧
    (set_info_content_sections
        (.elem "div" [] none
          ([pNode "Intro"] ++
            [(h2Node "History", [pNode "A"]),
              (h2Node "Geo", [pNode "B", pNode "C"])].flatMap
              blockChildren))).length = 3 := by
  have h := sectionExtractor_headings_with_paragraphs
    [pNode "Intro"]
    [(h2Node "History", [pNode "A"]),
      (h2Node "Geo", [pNode "B", pNode "C"])] [] none
    (by intro n hn; simp at hn; subst hn; rfl)
    (by
      intro b hb
      simp at hb
      rcases hb with rfl | rfl
      · exact ⟨rfl, by simp, by intro n hn; simp at hn; subst hn; rfl⟩
      · refine ⟨rfl, by simp, ?_⟩
        intro n hn; simp at hn; rcases hn with rfl | rfl <;> rfl)
  exact ⟨by rw [h.1]; decide, by rw [h.2]; decide⟩

/-- C2 counterexample: a level-3 heading contributes a leading line
break as well, so the resulting content is not the buffer followed by
the heading's text plus only a trailing break. -/
theorem h3_trailing_break_counterexample :
    runSectionExtractor [pNode "A", h3Node "Sub"] =
      [⟨"", "A\nSub\n"⟩] ∧
    ("A\nSub\n" : String) ≠ "A" ++ "Sub" ++ "\n" := by decide

/-- C2 (amended): a level-3 or level-4 heading child appends a line
break, the heading's text, and a trailing line break to the buffer,
leaving `have_text` and the emitted sections unchanged; the example
container of the spec yields exactly the two stated sections. -/
theorem h34_step_and_example :
    (∀ (st : SEState) (n : Node),
      isTag "h3" n = true ∨ isTag "h4" n = true →
      stepChild st n =
        ⟨st.current_title,
          st.current_texts ++ ["\n" ++ getText n ++ "\n"],
          st.have_text, st.sections⟩) ∧
    runSectionExtractor
        [pNode "Intro", h2Node "History", pNode "Text A", h3Node "Sub",
          pNode "Text B"] =
      [⟨"", "Intro"⟩, ⟨"History", "Text A\nSub\nText B"⟩] :=
  ⟨fun st n h => stepChild_h34 h st, by decide⟩

/-- C2 witness: the step rule applied to a concrete level-3 heading
from the empty state. -/
theorem h34_step_and_example_witness :
    stepChild ⟨"", [], false, []⟩ (h3Node "X") =
      ⟨"", ["\nX\n"], false, []⟩ := by
  have h := h34_step_and_example.1 ⟨"", [], false, []⟩ (h3Node "X")
    (Or.inl rfl)
  rw [h]; decide

theorem stepChild_preserves_no_text {n : Node} {st : SEState}
    (hn : isTag "p" n = false) (hf : st.have_text = false) :
    (stepChild st n).have_text = false ∧
    (stepChild st n).sections = st.sections := by
  cases n with
  | text s => exact ⟨hf, rfl⟩
  | elem tg cls hr kids =>
      have htg : ¬tg = "p" := by simpa [isTag] using hn
      by_cases h2 : tg = "h2"
      · subst h2
        rw [stepChild_h2 (by simp [isTag])]
        exact ⟨rfl, by simp [emitPending, hf]⟩
      · by_cases h3 : tg = "h3"
        · subst h3
          rw [stepChild_h34 (Or.inl (by simp [isTag]))]
          exact ⟨hf, rfl⟩
        · by_cases h4 : tg = "h4"
          · subst h4
            rw [stepChild_h34 (Or.inr (by simp [isTag]))]
            exact ⟨hf, rfl⟩
          · by_cases hdl : tg = "dl"
            · subst hdl
              rw [stepChild_dl (by simp [isTag])]
              exact ⟨hf, rfl⟩
            · simp [stepChild, beq_iff_eq, h2, htg, h3, h4, hdl, hf]

theorem foldl_no_p (children : List Node) :
    ∀ st : SEState, (∀ n ∈ children, isTag "p" n = false) →
      st.have_text = false →
      (children.foldl stepChild st).have_text = false ∧
      (children.foldl stepChild st).sections = st.sections := by
  induction children with
  | nil => intro st _ hf; exact ⟨hf, rfl⟩
  | cons n ns ih =>
      intro st h hf
      obtain ⟨hf', hs'⟩ :=
        stepChild_preserves_no_text (h n (by simp)) hf
      obtain ⟨hf'', hs''⟩ := ih _ (fun x hx => h x (by simp [hx])) hf'
      rw [List.foldl_cons]
      exact ⟨hf'', hs''.trans hs'⟩

/-- C8: a definition-list child appends its newline-joined item texts
to the buffer only when that text is non-empty and never changes
`have_text` or the emitted sections; consequently a container with no
paragraph children emits no sections at all — a buffer fed only by
definition lists is never retained. -/
theorem dl_step_and_no_paragraph_no_sections :
    (∀ (st : SEState) (n : Node), isTag "dl" n = true →
      stepChild st n =
        ⟨st.current_title,
          st.current_texts ++
            (if extract_dl_text n = "" then []
              else [extract_dl_text n]),
          st.have_text, st.sections⟩) ∧
    (∀ children : List Node,
      (∀ n ∈ children, isTag "p" n = false) →
      runSectionExtractor children = []) := by
  refine ⟨fun st n h => stepChild_dl h st, fun children h => ?_⟩
  rw [runSE_eq_finish]
  obtain ⟨hf, hs⟩ := foldl_no_p children ⟨"", [], false, []⟩ h rfl
  simp [finishState, emitPending, hf, hs]

/-- C8 witness: a concrete definition list appends its joined item
texts, and a container holding only definition lists and headings
yields no sections. -/
theorem dl_step_and_no_paragraph_no_sections_witness :
    stepChild ⟨"", [], false, []⟩ (dlNode "T" "D") =
      ⟨"", ["T\nD"], false, []⟩ ∧
    runSectionExtractor [dlNode "T" "D", h2Node "X", dlNode "A" "B"] =
      [] := by
  constructor
  · have h := dl_step_and_no_paragraph_no_sections.1
      ⟨"", [], false, []⟩ (dlNode "T" "D") rfl
    rw [h]; decide
  · refine dl_step_and_no_paragraph_no_sections.2 _ ?_
    intro n hn
    simp at hn
    rcases hn with rfl | rfl | rfl <;> rfl

theorem findAllList_items_none (p : Node → Bool) (items : List TdItem)
    (ha : ∀ (h : Option String) (s : String),
      p (Node.elem "a" [] h [.text s]) = false)
    (ht : ∀ s, p (.text s) = false) :
    findAllList p (items.map tdItemNode) = [] := by
  induction items with
  | nil => rfl
  | cons i is ih =>
      cases i with
      | txt s =>
          simp [tdItemNode, findAllList, findAllDesc, ht s, ih]
      | link h s =>
          simp [tdItemNode, findAllList, findAllDesc, ha h s, ih,
            ht s]

theorem findAllList_items_tag (t : String) (hne : t ≠ "a")
    (items : List TdItem) :
    findAllList (isTag t) (items.map tdItemNode) = [] := by
  refine findAllList_items_none _ items (fun h s => ?_) (fun s => rfl)
  simp [isTag]
  exact fun hc => absurd hc.symm hne

theorem findAllList_items_a (items : List TdItem) :
    findAllList (isTag "a") (items.map tdItemNode) =
      items.filterMap fun i =>
        match i with
        | .link h s => some (Node.elem "a" [] h [.text s])
        | .txt _ => none := by
  induction items with
  | nil => rfl
  | cons i is ih =>
      cases i with
      | txt s => simp [tdItemNode, findAllList, findAllDesc, isTag, ih]
      | link h s =>
          simp [tdItemNode, findAllList, findAllDesc, isTag, ih]

theorem findAllList_items_a_strip (items : List TdItem) :
    (findAllList (isTag "a") (items.map tdItemNode)).map getTextStrip =
      linkTexts items := by
  rw [findAllList_items_a, List.map_filterMap]
  induction items with
  | nil => rfl
  | cons i is ih =>
      cases i with
      | txt s => simpa [linkTexts] using ih
      | link h s =>
          simp only [List.filterMap_cons, linkTexts] at ih ⊢
          simp [getTextStrip, getTextStripList, ih]

theorem findAllList_items_a_isEmpty (items : List TdItem) :
    (findAllList (isTag "a") (items.map tdItemNode)).isEmpty =
      (linkTexts items).isEmpty := by
  have h := findAllList_items_a_strip items
  rw [← h]
  cases findAllList (isTag "a") (items.map tdItemNode) <;> rfl

theorem getTextStripList_items (items : List TdItem) :
    getTextStripList (items.map tdItemNode) =
      joinStrings (items.map itemStripText) := by
  induction items with
  | nil => rfl
  | cons i is ih =>
      cases i with
      | txt s =>
          simp [tdItemNode, getTextStripList, getTextStrip,
            itemStripText, joinStrings, ih]
      | link h s =>
          simp [tdItemNode, getTextStripList, getTextStrip,
            itemStripText, joinStrings, ih]

theorem processRow_rowNode (acc : List InfoBoxSection) (r : RowSpec) :
    processRow acc (rowNode r) = acc ++ (rowSection r).toList := by
  cases r with
  | full cls key items =>
      have hth :
          findDesc (isTag "th") (rowNode (.full cls key items)) =
            some (.elem "th" cls none [.text key]) := by
        simp [findDesc, rowNode, findAllDesc, findAllList, isTag,
          findAllList_items_tag "th" (by decide) items]
      have htd :
          findDesc (isTag "td") (rowNode (.full cls key items)) =
            some (.elem "td" [] none (items.map tdItemNode)) := by
        simp [findDesc, rowNode, findAllDesc, findAllList, isTag,
          findAllList_items_tag "td" (by decide) items]
      by_cases hti : "title" ∈ cls
      · simp [processRow, hth, htd, classesOf, hti, rowSection,
          Option.toList]
      · by_cases hlk : (linkTexts items).isEmpty
        · simp [processRow, hth, htd, classesOf, hti, rowSection,
            Option.toList, findAllDesc, findAllList_items_a_isEmpty,
            hlk, tdValue, getTextStrip, getTextStripList,
            getTextStripList_items, findAllList_items_a_strip]
        · simp [processRow, hth, htd, classesOf, hti, rowSection,
            Option.toList, findAllDesc, findAllList_items_a_isEmpty,
            hlk, tdValue, getTextStrip, getTextStripList,
            findAllList_items_a_strip]
  | headerOnly cls key =>
      have hth :
          findDesc (isTag "th") (rowNode (.headerOnly cls key)) =
            some (.elem "th" cls none [.text key]) := by
        simp [findDesc, rowNode, findAllDesc, findAllList, isTag]
      have htd :
          findDesc (isTag "td") (rowNode (.headerOnly cls key)) =
            none := by
        simp [findDesc, rowNode, findAllDesc, findAllList, isTag]
      by_cases hti : "title" ∈ cls <;>
        simp [processRow, hth, htd, classesOf, hti, rowSection,
          Option.toList]
  | dataOnly items =>
      have hth :
          findDesc (isTag "th") (rowNode (.dataOnly items)) = none := by
        simp [findDesc, rowNode, findAllDesc, findAllList, isTag,
          findAllList_items_tag "th" (by decide) items]
      simp [processRow, hth, rowSection, Option.toList]
  | blank =>
      simp [processRow, rowNode, findDesc, findAllDesc, findAllList,
        rowSection, Option.toList]

theorem foldl_processRow (rows : List RowSpec) :
    ∀ acc : List InfoBoxSection,
      (rows.map rowNode).foldl processRow acc =
        acc ++ rows.filterMap rowSection := by
  induction rows with
  | nil => intro acc; simp
  | cons r rs ih =>
      intro acc
      rw [List.map_cons, List.foldl_cons, processRow_rowNode, ih,
        List.filterMap_cons]
      cases h : rowSection r <;> simp [h, Option.toList]

theorem findAllList_all_match (p : Node → Bool) (l : List Node)
    (h : ∀ n ∈ l, p n = true ∧ findAllDesc p n = []) :
    findAllList p l = l := by
  induction l with
  | nil => rfl
  | cons n ns ih =>
      obtain ⟨h1, h2⟩ := h n (by simp)
      simp [findAllList, h1, h2, ih (fun x hx => h x (by simp [hx]))]

theorem rowNode_no_tr (r : RowSpec) :
    findAllDesc (isTag "tr") (rowNode r) = [] := by
  cases r <;>
    simp [rowNode, findAllDesc, findAllList, isTag,
      findAllList_items_tag "tr" (by decide)]

theorem titleRowNode_no_tr (t : String) :
    findAllDesc (isTag "tr") (titleRowNode t) = [] := by
  simp [titleRowNode, findAllDesc, findAllList, isTag]

theorem findAll_tr_tableNode (titleRow : Option String)
    (rows : List RowSpec) :
    findAllDesc (isTag "tr") (tableNode titleRow rows) =
      (match titleRow with
        | some t => [titleRowNode t]
        | none => []) ++ rows.map rowNode := by
  show findAllList (isTag "tr") _ = _
  refine findAllList_all_match _ _ ?_
  intro n hn
  rcases List.mem_append.1 hn with h | h
  · cases titleRow with
    | none => simp at h
    | some t =>
        simp at h
        subst h
        exact ⟨rfl, titleRowNode_no_tr t⟩
  · obtain ⟨r, _, rfl⟩ := List.mem_map.1 h
    refine ⟨?_, rowNode_no_tr r⟩
    cases r <;> rfl

theorem processRow_titleRowNode (acc : List InfoBoxSection)
    (t : String) : processRow acc (titleRowNode t) = acc := by
  simp [processRow, titleRowNode, findDesc, findAllDesc, findAllList,
    isTag, classesOf]

theorem set_info_box_sections_tableNode (titleRow : Option String)
    (rows : List RowSpec) :
    set_info_box_sections (tableNode titleRow rows) =
      rows.filterMap rowSection := by
  rw [set_info_box_sections, findAll_tr_tableNode]
  cases titleRow with
  | none => simpa using foldl_processRow rows []
  | some t =>
      rw [List.cons_append, List.nil_append, List.foldl_cons,
        processRow_titleRowNode]
      simpa using foldl_processRow rows []

theorem findAllList_no_match (p : Node → Bool) (l : List Node)
    (h : ∀ n ∈ l, p n = false ∧ findAllDesc p n = []) :
    findAllList p l = [] := by
  induction l with
  | nil => rfl
  | cons n ns ih =>
      obtain ⟨h1, h2⟩ := h n (by simp)
      simp [findAllList, h1, h2, ih (fun x hx => h x (by simp [hx]))]

theorem isTag_elem (t tg : String) (cls : List String)
    (hr : Option String) (kids : List Node) :
    isTag t (.elem tg cls hr kids) = (tg == t) := rfl

theorem isTag_text (t s : String) : isTag t (.text s) = false := rfl

theorem classesOf_elem (tg : String) (cls : List String)
    (hr : Option String) (kids : List Node) :
    classesOf (.elem tg cls hr kids) = cls := rfl

theorem findAllList_items_th_title (items : List TdItem) :
    findAllList
        (fun n => isTag "th" n && matchClass "title" (classesOf n))
        (items.map tdItemNode) = [] :=
  findAllList_items_none
    (fun n => isTag "th" n && matchClass "title" (classesOf n)) items
    (fun _ _ => rfl) (fun _ => rfl)

theorem rowNode_no_title_th (r : RowSpec) (h : rowTitleFree r) :
    findAllDesc
        (fun n => isTag "th" n && matchClass "title" (classesOf n))
        (rowNode r) = [] := by
  cases r with
  | full cls key items =>
      have h' : matchClass "title" cls = false := h
      simp [rowNode, findAllDesc, findAllList, isTag_elem, isTag_text,
        classesOf_elem, h', findAllList_items_th_title]
  | headerOnly cls key =>
      have h' : matchClass "title" cls = false := h
      simp [rowNode, findAllDesc, findAllList, isTag_elem, isTag_text,
        classesOf_elem, h']
  | dataOnly items =>
      simp [rowNode, findAllDesc, findAllList, isTag_elem, isTag_text,
        classesOf_elem, findAllList_items_th_title]
  | blank => simp [rowNode, findAllDesc, findAllList]

theorem findDesc_table (titleRow : Option String)
    (rows : List RowSpec) :
    findDesc
        (fun n =>
          isTag "table" n && matchClass "infobox side" (classesOf n))
        (domNode (tableNode titleRow rows)) =
      some (tableNode titleRow rows) := by
  have hm : matchClass "infobox side" ["infobox", "side"] = true := by
    decide
  simp [findDesc, domNode, findAllDesc, findAllList, isTag, classesOf,
    tableNode, hm]

theorem findDesc_title_cell_some (t : String) (rows : List RowSpec) :
    findDesc
        (fun n => isTag "th" n && matchClass "title" (classesOf n))
        (tableNode (some t) rows) =
      some (.elem "th" ["title"] none [.text t]) := by
  have hm : matchClass "title" ["title"] = true := by decide
  simp [findDesc, tableNode, titleRowNode, findAllDesc, findAllList,
    isTag, classesOf, hm]

theorem findDesc_title_cell_none (rows : List RowSpec)
    (hrows : ∀ r ∈ rows, rowTitleFree r) :
    findDesc
        (fun n => isTag "th" n && matchClass "title" (classesOf n))
        (tableNode none rows) = none := by
  have h :
      findAllList
          (fun n => isTag "th" n && matchClass "title" (classesOf n))
          (rows.map rowNode) = [] := by
    refine findAllList_no_match _ _ ?_
    intro n hn
    obtain ⟨r, hr, rfl⟩ := List.mem_map.1 hn
    refine ⟨?_, rowNode_no_title_th r (hrows r hr)⟩
    cases r <;> rfl
  show (findAllList _ _).head? = none
  simp [tableNode, h]

theorem length_filterMap_rowSection (rows : List RowSpec)
    (h : ∀ r ∈ rows, rowTitleFree r) :
    (rows.filterMap rowSection).length =
      rows.length - rows.countP rowMissingCell := by
  induction rows with
  | nil => rfl
  | cons r rs ih =>
      have hle : rs.countP rowMissingCell ≤ rs.length :=
        List.countP_le_length _
      have ih' := ih fun x hx => h x (by simp [hx])
      cases r with
      | full cls key items =>
          have h0 : rowTitleFree (RowSpec.full cls key items) :=
            h (RowSpec.full cls key items) (by simp)
          have h1 : matchClass "title" cls = false := h0
          have hr' : ¬("title" ∈ cls) := by
            simp [matchClass] at h1
            exact h1.1
          simp [List.filterMap_cons, rowSection, hr', List.countP_cons,
            rowMissingCell, ih']
          omega
      | headerOnly cls key =>
          simp [List.filterMap_cons, rowSection, List.countP_cons,
            rowMissingCell, ih']
      | dataOnly items =>
          simp [List.filterMap_cons, rowSection, List.countP_cons,
            rowMissingCell, ih']
      | blank =>
          simp [List.filterMap_cons, rowSection, List.countP_cons,
            rowMissingCell, ih']

/-- C6: an infobox table with a title row and `k` key/value rows of
which `j` are missing the header or the data cell yields exactly
`k - j` sections plus the extracted title; each emitted section's
title is the header cell's stripped text and its description is the
comma-joined link texts in DOM order when the data cell contains
links, else the data cell's own text. -/
theorem infoBox_kv_rows (titleText : String) (rows : List RowSpec)
    (ib : Option InfoBox) (hrows : ∀ r ∈ rows, rowTitleFree r) :
    set_info_box (domNode (tableNode (some titleText) rows)) ib =
      some ⟨pyStrip titleText, rows.filterMap rowSection⟩ ∧
    (set_info_box_sections (tableNode (some titleText) rows)).length =
      rows.length - rows.countP rowMissingCell := by
  constructor
  · simp only [set_info_box, findDesc_table, findDesc_title_cell_some,
      set_info_box_sections_tableNode]
    simp [getTextStrip, getTextStripList]
  · rw [set_info_box_sections_tableNode]
    exact length_filterMap_rowSection rows hrows

/-- C6 witness: a table with a title row and five key/value rows, of
which three are missing a cell, yields the title and the two expected
sections. -/
theorem infoBox_kv_rows_witness :
    set_info_box
        (domNode
          (tableNode (some " Kaladin ")
            [.full [] "Species" [.link none " Human ", .txt ", mostly"],
              .headerOnly [] "Born",
              .dataOnly [.txt "x"],
              .blank,
              .full [] "Home" [.txt " Alethkar "]])) none =
      some ⟨"Kaladin",
        [⟨"Species", "Human"⟩, ⟨"Home", "Alethkar"⟩]⟩ ∧
    (set_info_box_sections
        (tableNode (some " Kaladin ")
          [.full [] "Species" [.link none " Human ", .txt ", mostly"],
            .headerOnly [] "Born",
            .dataOnly [.txt "x"],
            .blank,
            .full [] "Home" [.txt " Alethkar "]])).length = 2 := by
  have h := infoBox_kv_rows " Kaladin "
    [.full [] "Species" [.link none " Human ", .txt ", mostly"],
      .headerOnly [] "Born",
      .dataOnly [.txt "x"],
      .blank,
      .full [] "Home" [.txt " Alethkar "]] none
    (by
      intro r hr
      simp at hr
      rcases hr with rfl | rfl | rfl | rfl | rfl
      · exact (by decide : matchClass "title" [] = false)
      · exact (by decide : matchClass "title" [] = false)
      · trivial
      · trivial
      · exact (by decide : matchClass "title" [] = false))
  exact ⟨by rw [h.1]; decide, by rw [h.2]; decide⟩

/-- C7: if the infobox table's first row is the distinguished title
row (its header cell carries the `title` class), its text becomes the
InfoBox title and the row contributes no key/value section; if no
such row is present anywhere, the title is the empty string. -/
theorem infoBox_title_rule (titleText : String) (rows : List RowSpec)
    (ib : Option InfoBox) (hrows : ∀ r ∈ rows, rowTitleFree r) :
    set_info_box (domNode (tableNode (some titleText) rows)) ib =
      some ⟨pyStrip titleText, rows.filterMap rowSection⟩ ∧
    set_info_box (domNode (tableNode none rows)) ib =
      some ⟨"", rows.filterMap rowSection⟩ := by
  constructor
  · simp only [set_info_box, findDesc_table, findDesc_title_cell_some,
      set_info_box_sections_tableNode]
    simp [getTextStrip, getTextStripList]
  · simp only [set_info_box, findDesc_table,
      findDesc_title_cell_none rows hrows,
      set_info_box_sections_tableNode]

/-- C7 witness: with a title row the extracted title is the row's
stripped text; without one it is empty. -/
theorem infoBox_title_rule_witness :
    set_info_box
        (domNode
          (tableNode (some "Roshar") [.full [] "Type" [.txt "World"]]))
        none =
      some ⟨"Roshar", [⟨"Type", "World"⟩]⟩ ∧
    set_info_box
        (domNode (tableNode none [.full [] "Type" [.txt "World"]]))
        none =
      some ⟨"", [⟨"Type", "World"⟩]⟩ := by
  have h := infoBox_title_rule "Roshar" [.full [] "Type" [.txt "World"]]
    none
    (by
      intro r hr
      simp at hr
      subst hr
      exact (by decide : matchClass "title" [] = false))
  exact ⟨by rw [h.1]; decide, by rw [h.2]; decide⟩

/-- C4 counterexample: when the snapshot has no content container the
caught failure does not leave `content` unset — `_set_content` has
already assigned an empty `Content` to the page before raising. -/
theorem scrape_content_sets_empty_content :
    (scrape_content (.ok (.elem "html" [] none []))
        ⟨"T", "https://example.com/x", none, none⟩).content ≠ none ∧
    scrape_content (.ok (.elem "html" [] none []))
        ⟨"T", "https://example.com/x", none, none⟩ =
      ⟨"T", "https://example.com/x", none, some ⟨[]⟩⟩ := by decide

/-- C4 (amended): every per-page failure is caught at the
`scrape_content` boundary (the function is total) and `info_box` is
never touched; a navigation failure leaves the page unchanged, but a
missing content container leaves `content` set to an empty `Content`
(overwriting any previous value) rather than unset/unchanged. -/
theorem scrape_content_error_containment (p : Page) :
    scrape_content .fail p = p ∧
    (∀ nav : NavResult, (scrape_content nav p).info_box = p.info_box) ∧
    (∀ dom : Node, findContentContainer dom = none →
      scrape_content (.ok dom) p = { p with content := some ⟨[]⟩ }) := by
  refine ⟨rfl, ?_, ?_⟩
  · intro nav
    cases nav with
    | fail => rfl
    | ok dom =>
        cases h : findContentContainer dom <;> simp [scrape_content, h]
  · intro dom h
    simp [scrape_content, h]

/-- C4 witness: a navigation failure leaves a previously scraped page
unchanged; a missing container leaves the info box alone but stores an
empty content. -/
theorem scrape_content_error_containment_witness :
    scrape_content .fail
        ⟨"P", "https://e.com/p", none, some ⟨[⟨"t", "c"⟩]⟩⟩ =
      ⟨"P", "https://e.com/p", none, some ⟨[⟨"t", "c"⟩]⟩⟩ ∧
    (scrape_content (.ok (.elem "body" [] none []))
        ⟨"P", "https://e.com/p", some ⟨"I", []⟩, none⟩).info_box =
      some ⟨"I", []⟩ ∧
    scrape_content (.ok (.elem "body" [] none []))
        ⟨"P", "https://e.com/p", some ⟨"I", []⟩, none⟩ =
      ⟨"P", "https://e.com/p", some ⟨"I", []⟩, some ⟨[]⟩⟩ := by
  refine ⟨(scrape_content_error_containment _).1,
    (scrape_content_error_containment _).2.1 _, ?_⟩
  have h := (scrape_content_error_containment
    ⟨"P", "https://e.com/p", some ⟨"I", []⟩, none⟩).2.2
    (.elem "body" [] none []) rfl
  rw [h]

/-- C3 counterexample: an anchor whose href is present but fails URL
validation is not silently dropped — `HttpUrl(url)` raises and the
whole parse aborts, so the group never yields its `L - J` pages. -/
theorem invalid_href_aborts_parse :
    parse_categories [⟨"Locations", [⟨"L1", some "not-a-url"⟩]⟩] =
      .error "not-a-url" ∧
    parse_categories [⟨"Locations", [⟨"L1", some "not-a-url"⟩]⟩] ≠
      .ok [⟨"Locations", []⟩] := by
  constructor
  · rfl
  · intro h
    rw [show parse_categories
        [⟨"Locations", [⟨"L1", some "not-a-url"⟩]⟩] =
          Except.error "not-a-url" from rfl] at h
    exact Except.noConfusion h

theorem buildPages_all_valid (anchors : List Anchor)
    (h : ∀ a ∈ anchors, ∀ u, a.href = some u →
      isValidHttpUrl u = true) :
    buildPages anchors = .ok (anchors.filterMap anchorPage) := by
  induction anchors with
  | nil => rfl
  | cons a rest ih =>
      have ih' := ih fun x hx u hu => h x (by simp [hx]) u hu
      cases ha : a.href with
      | none => simp [buildPages, ha, anchorPage, ih']
      | some u =>
          have hu := h a (by simp) u ha
          simp [buildPages, ha, anchorPage, hu, ih']

theorem length_filterMap_anchorPage (anchors : List Anchor)
    (h : ∀ a ∈ anchors, ∀ u, a.href = some u →
      isValidHttpUrl u = true) :
    (anchors.filterMap anchorPage).length =
      anchors.length - anchors.countP (fun a => a.href.isNone) := by
  induction anchors with
  | nil => rfl
  | cons a rest ih =>
      have hle : rest.countP (fun a => a.href.isNone) ≤ rest.length :=
        List.countP_le_length _
      have ih' := ih fun x hx u hu => h x (by simp [hx]) u hu
      cases ha : a.href with
      | none =>
          simp [List.filterMap_cons, anchorPage, ha, List.countP_cons,
            ih']
      | some u =>
          have hu := h a (by simp) u ha
          simp [List.filterMap_cons, anchorPage, ha, hu,
            List.countP_cons, ih']
          omega

/-- C3 (amended): an anchor with a *missing* href is silently dropped
without failing the group or the parse, so a category group with `L`
anchors of which `J` lack an href yields exactly `L - J` PageRefs in
document order; an anchor whose href is present but fails URL
validation instead raises a validation error that aborts the whole
parse (see the counterexample). -/
theorem parse_categories_drops_missing_hrefs (groups : List CatGroup)
    (hvalid : ∀ g ∈ groups, ∀ a ∈ g.anchors, ∀ u, a.href = some u →
      isValidHttpUrl u = true) :
    parse_categories groups =
      .ok (groups.map fun g =>
        ⟨pyStrip g.heading, g.anchors.filterMap anchorPage⟩) ∧
    ∀ g ∈ groups,
      (g.anchors.filterMap anchorPage).length =
        g.anchors.length - g.anchors.countP (fun a => a.href.isNone) := by
  constructor
  · induction groups with
    | nil => rfl
    | cons g rest ih =>
        have ihg := ih fun x hx => hvalid x (by simp [hx])
        rw [parse_categories,
          buildPages_all_valid g.anchors (hvalid g (by simp)), ihg]
        simp
  · intro g hg
    exact length_filterMap_anchorPage g.anchors (hvalid g hg)

/-- C3 witness: a group with three anchors, one lacking an href,
yields two pages in document order. -/
theorem parse_categories_drops_missing_hrefs_witness :
    parse_categories
        [⟨" Characters ",
          [⟨"A", some "https://c.net/a"⟩, ⟨"B", none⟩,
            ⟨"C", some "https://c.net/c"⟩]⟩] =
      .ok [⟨"Characters",
        [⟨"A", "https://c.net/a", none, none⟩,
          ⟨"C", "https://c.net/c", none, none⟩]⟩] ∧
    ([(⟨"A", some "https://c.net/a"⟩ : Anchor), ⟨"B", none⟩,
        ⟨"C", some "https://c.net/c"⟩].filterMap anchorPage).length =
      2 := by
  have hvalid : ∀ g ∈ [(⟨" Characters ",
      [⟨"A", some "https://c.net/a"⟩, ⟨"B", none⟩,
        ⟨"C", some "https://c.net/c"⟩]⟩ : CatGroup)],
      ∀ a ∈ g.anchors, ∀ u, a.href = some u →
        isValidHttpUrl u = true := by
    intro g hg a ha u hu
    simp at hg
    subst hg
    simp at ha
    rcases ha with rfl | rfl | rfl
    · simp at hu; subst hu; decide
    · simp at hu
    · simp at hu; subst hu; decide
  have h := parse_categories_drops_missing_hrefs _ hvalid
  refine ⟨h.1.trans (congrArg Except.ok (by decide)), ?_⟩
  have h2 := h.2 (⟨" Characters ",
    [⟨"A", some "https://c.net/a"⟩, ⟨"B", none⟩,
      ⟨"C", some "https://c.net/c"⟩]⟩ : CatGroup) (by simp)
  exact h2.trans (by decide)

theorem updateFirst_no_match {α} (p : α → Bool) (f : α → α)
    (l : List α) (h : ∀ x ∈ l, p x = false) :
    updateFirst p f l = l := by
  induction l with
  | nil => rfl
  | cons x xs ih =>
      simp [updateFirst, h x (by simp),
        ih fun y hy => h y (by simp [hy])]

theorem updateFirst_first_match {α} (p : α → Bool) (f : α → α)
    (pre : List α) (x : α) (post : List α)
    (hpre : ∀ y ∈ pre, p y = false) (hx : p x = true) :
    updateFirst p f (pre ++ x :: post) = pre ++ f x :: post := by
  induction pre with
  | nil => simp [updateFirst, hx]
  | cons y ys ih =>
      simp [updateFirst, hpre y (by simp),
        ih fun z hz => hpre z (by simp [hz])]

/-- C10: `Crawler.scrape_page` evaluates `page_title[0]` and so faults
on the empty title; with a non-empty title it looks up the first
category whose name equals the one-character string `page_title[0]`
and scrapes only the page titled `page_title` inside that category
(the in-place update of that category's first matching page); when no
category name equals `page_title[0]`, the whole state is unchanged;
and a category containing no page with that title is also
unchanged. -/
theorem crawler_scrape_page_spec (nav : NavResult) (c : Crawler)
    (page_title : String) :
    crawler_scrape_page nav c "" = none ∧
    (page_title ≠ "" →
      ((∀ cat ∈ c.categories,
          (cat.name == firstCharString page_title) = false) →
        crawler_scrape_page nav c page_title = some c) ∧
      (∀ pre cat post, c.categories = pre ++ cat :: post →
        (∀ x ∈ pre, (x.name == firstCharString page_title) = false) →
        (cat.name == firstCharString page_title) = true →
        crawler_scrape_page nav c page_title =
          some ⟨pre ++ category_scrape_page nav cat page_title :: post⟩)) ∧
    (∀ catg : Category,
      (∀ q ∈ catg.pages, (q.title == page_title) = false) →
      category_scrape_page nav catg page_title = catg) := by
  refine ⟨rfl, fun hpt => ?_, fun catg hq => ?_⟩
  · have hne : page_title.data ≠ [] := by
      intro hd
      exact hpt (by cases page_title; simp_all)
    have hdata : page_title.data.isEmpty = false := by
      cases hd : page_title.data with
      | nil => exact absurd hd hne
      | cons a as => rfl
    constructor
    · intro hnone
      have := updateFirst_no_match
        (fun cat => cat.name == firstCharString page_title)
        (fun cat => category_scrape_page nav cat page_title)
        c.categories hnone
      simp [crawler_scrape_page, hdata, this]
    · intro pre cat post hsplit hpre hcat
      have := updateFirst_first_match
        (fun cat => cat.name == firstCharString page_title)
        (fun cat => category_scrape_page nav cat page_title)
        pre cat post hpre hcat
      simp [crawler_scrape_page, hdata, hsplit, this]
  · have := updateFirst_no_match
      (fun q => q.title == page_title) (scrape_content nav)
      catg.pages hq
    simp [category_scrape_page, this]

/-- C10 witness: the empty title faults; a title whose first character
matches no category name leaves the crawler unchanged; a matching
first character updates exactly the matching category. -/
theorem crawler_scrape_page_spec_witness :
    crawler_scrape_page .fail
        ⟨[⟨"X", []⟩,
          ⟨"A", [⟨"Ash", "https://c.net/ash", none, none⟩]⟩]⟩ "" =
      none ∧
    crawler_scrape_page .fail
        ⟨[⟨"X", []⟩,
          ⟨"A", [⟨"Ash", "https://c.net/ash", none, none⟩]⟩]⟩ "Zed" =
      some ⟨[⟨"X", []⟩,
        ⟨"A", [⟨"Ash", "https://c.net/ash", none, none⟩]⟩]⟩ ∧
    crawler_scrape_page .fail
        ⟨[⟨"X", []⟩,
          ⟨"A", [⟨"Ash", "https://c.net/ash", none, none⟩]⟩]⟩ "Ash" =
      some ⟨[⟨"X", []⟩,
        category_scrape_page .fail
          ⟨"A", [⟨"Ash", "https://c.net/ash", none, none⟩]⟩ "Ash"]⟩ := by
  refine ⟨(crawler_scrape_page_spec .fail _ "").1, ?_, ?_⟩
  · refine ((crawler_scrape_page_spec .fail
      ⟨[⟨"X", []⟩,
        ⟨"A", [⟨"Ash", "https://c.net/ash", none, none⟩]⟩]⟩
      "Zed").2.1 (by decide)).1 ?_
    intro cat hcat
    simp at hcat
    rcases hcat with rfl | rfl <;> decide
  · refine ((crawler_scrape_page_spec .fail
      ⟨[⟨"X", []⟩,
        ⟨"A", [⟨"Ash", "https://c.net/ash", none, none⟩]⟩]⟩
      "Ash").2.1 (by decide)).2 [⟨"X", []⟩]
      ⟨"A", [⟨"Ash", "https://c.net/ash", none, none⟩]⟩ [] rfl ?_
      (by decide)
    intro x hx
    simp at hx
    subst hx
    decide

theorem decode_encode_ibsection (s : InfoBoxSection) :
    decodeInfoBoxSection (encodeInfoBoxSection s) = some s := rfl

theorem decode_encode_csection (s : ContentSection) :
    decodeContentSection (encodeContentSection s) = some s := rfl

theorem decodeList_encode {α} (f : Json → Option α) (g : α → Json) :
    ∀ l : List α, (∀ x ∈ l, f (g x) = some x) →
      decodeList f (l.map g) = some l := by
  intro l
  induction l with
  | nil => intro _; rfl
  | cons x xs ih =>
      intro h
      simp [decodeList, h x (by simp),
        ih fun y hy => h y (by simp [hy])]

theorem decode_encode_infoBox (b : InfoBox) :
    decodeInfoBox (encodeInfoBox b) = some b := by
  have hl := decodeList_encode decodeInfoBoxSection
    encodeInfoBoxSection b.info_box_sections
    (fun x _ => decode_encode_ibsection x)
  simp [decodeInfoBox, encodeInfoBox, lookupField, asStr, hl]

theorem decode_encode_content (c : Content) :
    decodeContent (encodeContent c) = some c := by
  have hl := decodeList_encode decodeContentSection
    encodeContentSection c.content_sections
    (fun x _ => decode_encode_csection x)
  simp [decodeContent, encodeContent, lookupField, hl]

theorem decode_encode_page (p : Page)
    (h : isValidHttpUrl p.url = true) :
    decodePage (encodePage p) = some p := by
  obtain ⟨t, u, ib, ct⟩ := p
  cases ib <;> cases ct <;>
    simp [decodePage, encodePage, encodeOpt, decodeOpt, lookupField,
      asStr, h, decode_encode_infoBox, decode_encode_content,
      encodeInfoBox, decodeInfoBox, encodeContent, decodeContent,
      decodeList_encode decodeInfoBoxSection encodeInfoBoxSection _
        (fun x _ => decode_encode_ibsection x),
      decodeList_encode decodeContentSection encodeContentSection _
        (fun x _ => decode_encode_csection x)]

theorem decode_encode_category (c : Category)
    (h : ∀ p ∈ c.pages, isValidHttpUrl p.url = true) :
    decodeCategory (encodeCategory c) = some c := by
  have hl := decodeList_encode decodePage encodePage c.pages
    (fun p hp => decode_encode_page p (h p hp))
  simp [decodeCategory, encodeCategory, lookupField, asStr, hl]

/-- C9: loading back a saved category tree restores it exactly —
`load_categories` after `save_categories` yields the original list for
every well-formed tree (all page urls valid), including pages whose
`content` or `info_box` is absent, with absent optional fields
(`null`) distinguishable from empty values. -/
theorem load_save_round_trip (categories : List Category)
    (h : ∀ c ∈ categories, ∀ p ∈ c.pages,
      isValidHttpUrl p.url = true) :
    load_categories (save_categories categories) = some categories := by
  show decodeList decodeCategory (categories.map encodeCategory) = _
  exact decodeList_encode _ _ categories
    (fun c hc => decode_encode_category c (h c hc))

/-- C9 witness: a tree with one fully populated page and one page with
both optional fields absent round-trips exactly. -/
theorem load_save_round_trip_witness :
    load_categories
        (save_categories
          [⟨"C",
            [⟨"P", "https://e.com/p", some ⟨"T", [⟨"k", "v"⟩]⟩,
                some ⟨[⟨"s", "c"⟩]⟩⟩,
              ⟨"Q", "http://e.com/q", none, none⟩]⟩]) =
      some
        [⟨"C",
          [⟨"P", "https://e.com/p", some ⟨"T", [⟨"k", "v"⟩]⟩,
              some ⟨[⟨"s", "c"⟩]⟩⟩,
            ⟨"Q", "http://e.com/q", none, none⟩]⟩] := by
  refine load_save_round_trip _ ?_
  intro c hc p hp
  simp at hc
  subst hc
  simp at hp
  rcases hp with rfl | rfl <;> decide

/-- C5: in a batch of `P` page tasks under concurrency bound `N < P`,
every reachable state has at most `N` extraction tasks running at
once; the task counts always sum to `P`; `gather` can return only in a
state where all `P` tasks have completed or failed; and if exactly one
task failed (its exception confined per page), the other `P - 1` have
completed successfully. -/
theorem batch_semaphore_bound (N P : Nat) (hNP : N < P)
    (s : BatchState) (hr : BatchReachable N P s) :
    s.running ≤ N ∧
    s.pending + s.running + s.succeeded + s.failed = P ∧
    (joined s → s.succeeded + s.failed = P) ∧
    (joined s → s.failed = 1 → s.succeeded = P - 1) := by
  have key : s.running ≤ N ∧
      s.pending + s.running + s.succeeded + s.failed = P := by
    induction hr with
    | init => exact ⟨Nat.zero_le _, by simp⟩
    | step hr hstep ih =>
        cases hstep with
        | start hp hrun =>
            exact ⟨hrun, by
              obtain ⟨_, h2⟩ := ih
              simp only at h2 ⊢
              omega⟩
        | finishOk hrun =>
            obtain ⟨h1, h2⟩ := ih
            exact ⟨by simp only at h1 ⊢; omega, by
              simp only at h2 ⊢; omega⟩
        | finishFail hrun =>
            obtain ⟨h1, h2⟩ := ih
            exact ⟨by simp only at h1 ⊢; omega, by
              simp only at h2 ⊢; omega⟩
  obtain ⟨h1, h2⟩ := key
  refine ⟨h1, h2, fun hj => ?_, fun hj hf => ?_⟩
  · obtain ⟨hp, hrun⟩ := hj
    omega
  · obtain ⟨hp, hrun⟩ := hj
    omega

/-- C5 witness: with `N = 1 < 2 = P`, the interleaving start, fail,
start, finish reaches the joined state in which one task failed and
the other `P - 1 = 1` succeeded, and the bound held throughout. -/
theorem batch_semaphore_bound_witness :
    (⟨0, 0, 1, 1⟩ : BatchState).running ≤ 1 ∧
    (⟨0, 0, 1, 1⟩ : BatchState).pending +
        (⟨0, 0, 1, 1⟩ : BatchState).running +
        (⟨0, 0, 1, 1⟩ : BatchState).succeeded +
        (⟨0, 0, 1, 1⟩ : BatchState).failed = 2 ∧
    (joined ⟨0, 0, 1, 1⟩ →
      (⟨0, 0, 1, 1⟩ : BatchState).succeeded +
          (⟨0, 0, 1, 1⟩ : BatchState).failed = 2) ∧
    (joined ⟨0, 0, 1, 1⟩ → (⟨0, 0, 1, 1⟩ : BatchState).failed = 1 →
      (⟨0, 0, 1, 1⟩ : BatchState).succeeded = 2 - 1) := by
  have h0 : BatchReachable 1 2 ⟨2, 0, 0, 0⟩ := .init
  have h1 : BatchReachable 1 2 ⟨1, 1, 0, 0⟩ :=
    h0.step (.start _ (by decide) (by decide))
  have h2 : BatchReachable 1 2 ⟨1, 0, 0, 1⟩ :=
    h1.step (.finishFail _ (by decide))
  have h3 : BatchReachable 1 2 ⟨0, 1, 0, 1⟩ :=
    h2.step (.start _ (by decide) (by decide))
  have h4 : BatchReachable 1 2 ⟨0, 0, 1, 1⟩ :=
    h3.step (.finishOk _ (by decide))
  exact batch_semaphore_bound 1 2 (by decide) ⟨0, 0, 1, 1⟩ h4

end Scrapper
